import Mathlib

/-!
# hyprland-discord-presence: the focus-event pump and its debounce pipeline

A shallow embedding of `main.go`.  The program's globals, the Go runtime's set of
pending timers and the observable effects (console lines, presence pushes,
subprocess runs, socket dials) are fields of one `World` record that every
function passes along.  Everything the program obtains from outside (environment
variables, directory listing, socket, `hyprctl`, the JSON decoder, the Discord
client) is a field of `Env`.

Time is a natural number of milliseconds.  A timer created by `time.AfterFunc`
is an entry of `World.timers`; `Stop` removes it, firing removes it and runs the
closure.  `step` is the free schedule: a due timer may fire at any later moment,
so a call made at or after a deadline may still find the timer pending and cancel
it.  `advanceTo` is the prompt schedule, one of the free ones: a timer fires at
the instant its deadline is reached, before anything the program does then.
-/

namespace HyprPresence

/-! ## Data model -/

/-- The Go struct `ActiveWindow`.  `Workspace` is `interface{}` in the source and is
never inspected; it is kept as the raw text of the decoded value. -/
structure ActiveWindow where
  Address : String
  Workspace : String
  Title : String
  Class : String
  PID : Int
deriving DecidableEq, Repr

/-- The `client.Activity` value handed to `client.SetActivity`, restricted to the
fields the program sets; `Start` is `Timestamps.Start`. -/
structure Activity where
  State : String
  Details : String
  LargeImage : String
  LargeText : String
  Start : Nat
deriving DecidableEq, Repr

/-- A pending runtime timer made by `time.AfterFunc`: its identity, its deadline and
the variable `activeWindow` captured by its closure. -/
structure Timer where
  id : Nat
  when : Nat
  activeWindow : String
deriving DecidableEq, Repr

/-- Whether the process is still executing `main`, parked in the empty `select`, or gone. -/
inductive ProcStatus where
  | running
  | blocked
  | exited (code : Nat)
deriving DecidableEq, Repr

/-- Program state and observable effects.
* `debounceTimer`, `useStream`, `startTime`: the three package-level variables;
* `now`: the clock (ms); `timers`: timers that can still fire; `nextTimer`: fresh identity;
* `stdout`: lines printed; `sent`: arguments of `client.SetActivity`, in call order;
* `queries`: number of `cmd.Run()` invocations; `dials`: paths passed to `net.Dial`;
* `submitted`: arguments of `debounceUpdate`, in call order. -/
structure World where
  now : Nat
  debounceTimer : Option Nat
  useStream : Bool
  startTime : Nat
  timers : List Timer
  nextTimer : Nat
  stdout : List String
  sent : List Activity
  queries : Nat
  dials : List String
  submitted : List String
  status : ProcStatus
deriving DecidableEq, Repr

/-- Everything outside the program.  An error is the text of its `Error()`.
* `useStreamFlag`: value of `-use-stream-window` after `flag.Parse`;
* `getenv`, `getuid`, `readDir`, `join`: `os.Getenv`, `os.Getuid`, `ioutil.ReadDir`
  (entry names), `filepath.Join`;
* `dial`, `write`: outcome of `net.Dial("unix", path)` and of `conn.Write`;
* `lines`: the tokens `scanner.Scan()` yields, each with the instant it is delivered;
  `eof`: the instant at which `Scan` returns false; `scanErr`: `scanner.Err()` then;
* `hyprctl n`: outcome of the `n`-th run of `hyprctl activewindow -j` (error, or stdout);
  `runTime n`: how long that run blocks the caller (ms);
* `unmarshal`: `json.Unmarshal` into a zero `ActiveWindow`;
* `login`: `client.Login`; `setActivity n a`: outcome of the `n`-th `client.SetActivity`. -/
structure Env where
  useStreamFlag : Bool
  getenv : String → String
  getuid : Nat
  readDir : String → Except String (List String)
  join : List String → String
  dial : String → Option String
  write : String → Option String
  lines : List (Nat × String)
  eof : Nat
  scanErr : Option String
  hyprctl : Nat → Except String String
  runTime : Nat → Nat
  unmarshal : String → Except String ActiveWindow
  login : String → Option String
  setActivity : Nat → Activity → Option String

/-! ## Runtime primitives -/

/-- One `fmt.Println` call. -/
def println (w : World) (line : String) : World :=
  { w with stdout := w.stdout ++ [line] }

/-- Process termination: `os.Exit` or return from `main`.  Timers die with the process. -/
def osExit (w : World) (code : Nat) : World :=
  { w with status := ProcStatus.exited code, timers := [] }

/-- `(*time.Timer).Stop`: the timer can no longer fire; no effect when it already has. -/
def timerStop (w : World) (id : Nat) : World :=
  { w with timers := w.timers.filter (fun tm => tm.id ≠ id) }

/-- `time.AfterFunc(d, func() { updateDiscordPresence(activeWindow) })`: a fresh timer
due `d` ms from now; returns its identity. -/
def afterFunc (w : World) (d : Nat) (activeWindow : String) : World × Nat :=
  ({ w with timers := w.timers ++ [⟨w.nextTimer, w.now + d, activeWindow⟩],
            nextTimer := w.nextTimer + 1 }, w.nextTimer)

/-! ## The program -/

/-- `init`: zero-valued globals, then the flag and the start time. -/
def init (env : Env) (now : Nat) : World :=
  { now := now, debounceTimer := none, useStream := env.useStreamFlag, startTime := now,
    timers := [], nextTimer := 0, stdout := [], sent := [], queries := 0, dials := [],
    submitted := [], status := ProcStatus.running }

/-- `getHyprlandSocketPath`; `none` when it called `os.Exit(1)`. -/
def getHyprlandSocketPath (env : Env) (w : World) : World × Option String :=
  let runtimeDir := env.getenv "XDG_RUNTIME_DIR"
  let runtimeDir := if runtimeDir = "" then "/run/user/" ++ toString env.getuid else runtimeDir
  let hyprDir := env.join [runtimeDir, "hypr"]
  match env.readDir hyprDir with
  | Except.error _ =>
    (osExit (println w ("Error: No Hyprland instance found in " ++ hyprDir)) 1, none)
  | Except.ok [] =>
    (osExit (println w ("Error: No Hyprland instance found in " ++ hyprDir)) 1, none)
  | Except.ok (instanceSignature :: _) =>
    (w, some (env.join [hyprDir, instanceSignature, ".socket2.sock"]))

/-- `getActiveWindowTitle`; the parameter `class` is spelled `windowClass`. -/
def getActiveWindowTitle (title : String) (windowClass : String) : String :=
  if title ≠ "" then "Opening " ++ title
  else if windowClass ≠ "" then "Opening " ++ windowClass
  else "No window opened"

/-- `getActiveWindowDetails`: `(nil, err)` is `Except.error`, `(&window, nil)` is `Except.ok`. -/
def getActiveWindowDetails (env : Env) (w : World) : World × Except String ActiveWindow :=
  let w1 := { w with queries := w.queries + 1 }
  match env.hyprctl w.queries with
  | Except.error err => (w1, Except.error ("failed to run hyprctl: " ++ err))
  | Except.ok out =>
    match env.unmarshal out with
    | Except.error err => (w1, Except.error ("failed to parse JSON: " ++ err))
    | Except.ok window => (w1, Except.ok window)

/-- `updateDiscordPresence`. -/
def updateDiscordPresence (env : Env) (w : World) (activeWindow : String) : World :=
  let activity : Activity :=
    { State := activeWindow, Details := "Using Hyprland on NixOS",
      LargeImage := "hyprland-dark", LargeText := "Hyprland", Start := w.startTime }
  let err := env.setActivity w.sent.length activity
  let w1 := { w with sent := w.sent ++ [activity] }
  match err with
  | some e => println w1 ("Failed to update Discord presence: " ++ e)
  | none => w1

/-- `debounceUpdate`. -/
def debounceUpdate (w : World) (activeWindow : String) : World :=
  let w0 := { w with submitted := w.submitted ++ [activeWindow] }
  let w1 := match w0.debounceTimer with
    | some id => timerStop w0 id
    | none => w0
  let (w2, id) := afterFunc w1 2000 activeWindow
  { w2 with debounceTimer := some id }

/-- A timer fires: if `id` is pending and due it leaves the pending set and its closure runs. -/
def fire (env : Env) (w : World) (id : Nat) : World :=
  match w.timers.find? (fun tm => tm.id = id) with
  | none => w
  | some tm =>
    if tm.when ≤ w.now then
      updateDiscordPresence env { w with timers := w.timers.filter (fun x => x.id ≠ id) }
        tm.activeWindow
    else w

/-- The pending timer with the smallest deadline not after `t` (first one on a tie). -/
def earliestDue (t : Nat) : List Timer → Option Timer
  | [] => none
  | tm :: rest =>
    match earliestDue t rest with
    | none => if tm.when ≤ t then some tm else none
    | some best => if tm.when ≤ best.when then some tm else some best

/-- Fire due timers, earliest first, each at its deadline; `fuel` bounds the number fired. -/
def runDue (env : Env) (t : Nat) : Nat → World → World
  | 0, w => w
  | fuel + 1, w =>
    match earliestDue t w.timers with
    | none => w
    | some tm => runDue env t fuel (fire env { w with now := max w.now tm.when } tm.id)

/-- Let time pass until instant `t` under the prompt schedule. -/
def advanceTo (env : Env) (t : Nat) (w : World) : World :=
  let w1 := runDue env t w.timers.length w
  { w1 with now := max w1.now t }

/-- The `for scanner.Scan()` loop of `listenForActiveWindowChanges` over the delivered
lines.  `Scan` blocks until the line's instant, or until `env.eof` once the lines are
exhausted; the resolver call blocks for `env.runTime`; timers reaching their deadline while
the loop is blocked fire.  A line delivered while the loop is busy is read as soon as the
loop comes back to `Scan`. -/
def scanLoop (env : Env) : World → List (Nat × String) → World
  | w, [] => advanceTo env env.eof w
  | w, (t, _) :: rest =>
    let w0 := advanceTo env t w
    match getActiveWindowDetails env w0 with
    | (w1, Except.error err) =>
      let w2 := advanceTo env (w1.now + env.runTime w0.queries) w1
      scanLoop env (println w2 ("Error fetching active window details: " ++ err)) rest
    | (w1, Except.ok window) =>
      let w2 := advanceTo env (w1.now + env.runTime w0.queries) w1
      scanLoop env (debounceUpdate w2 (getActiveWindowTitle window.Title window.Class)) rest

/-- `listenForActiveWindowChanges`. -/
def listenForActiveWindowChanges (env : Env) (w : World) : World :=
  match getHyprlandSocketPath env w with
  | (w1, none) => w1
  | (w1, some socketPath) =>
    let w2 := { w1 with dials := w1.dials ++ [socketPath] }
    match env.dial socketPath with
    | some err => println w2 ("Failed to connect to Hyprland socket: " ++ err)
    | none =>
      match env.write "subactivewindow\n" with
      | some err => println w2 ("Failed to send subscription request: " ++ err)
      | none =>
        let w3 := println w2 "Listening for active window changes..."
        let w4 := scanLoop env w3 env.lines
        match env.scanErr with
        | some err => println w4 ("Error reading from socket: " ++ err)
        | none => w4

/-- `main`.  Returning from `main` ends the process unless `os.Exit` already did. -/
def main (env : Env) (w : World) : World :=
  match env.login "1346300274087559259" with
  | some err => osExit (println w ("Failed to connect to Discord: " ++ err)) 0
  | none =>
    if w.useStream then
      let w1 := listenForActiveWindowChanges env w
      match w1.status with
      | ProcStatus.exited _ => w1
      | _ => osExit w1 0
    else
      { updateDiscordPresence env w "Working on something great" with
        status := ProcStatus.blocked }

/-! ## Schedules -/

/-- What can happen to the coalescer: a `debounceUpdate` call, a pending timer firing,
time passing. -/
inductive Action where
  | submit (activeWindow : String)
  | fire (id : Nat)
  | tick (d : Nat)
  | advance (t : Nat)
deriving DecidableEq, Repr

/-- One action of the free schedule. -/
def step (env : Env) (w : World) : Action → World
  | Action.submit a => debounceUpdate w a
  | Action.fire id => fire env w id
  | Action.tick d => { w with now := w.now + d }
  | Action.advance t => advanceTo env t w

/-- A run of the free schedule. -/
def steps (env : Env) (w : World) (actions : List Action) : World :=
  actions.foldl (step env) w

/-- The activity `updateDiscordPresence` builds for a status when the start time is `start`. -/
def activityOf (start : Nat) (status : String) : Activity :=
  { State := status, Details := "Using Hyprland on NixOS",
    LargeImage := "hyprland-dark", LargeText := "Hyprland", Start := start }

/-- What the resolver returns on its `n`-th call (calls are numbered from 0). -/
def resolution (env : Env) (n : Nat) : Except String ActiveWindow :=
  (getActiveWindowDetails env { init env 0 with queries := n }).2

/-- The status the loop body submits for a resolver outcome: none for an error. -/
def submission : Except String ActiveWindow → Option String
  | Except.error _ => none
  | Except.ok window => some (getActiveWindowTitle window.Title window.Class)

/-- At most one timer is pending, and it is the one stored in `debounceTimer`. -/
def SingleSlot (w : World) : Prop :=
  w.timers.length ≤ 1 ∧ ∀ tm ∈ w.timers, w.debounceTimer = some tm.id

/-- A sample environment: one Hyprland instance, a socket that delivers three lines and
closes at 6000 ms, `hyprctl` answering `bad`, `ok`, then failing, 5 ms each time, and a sink
that rejects the first push. -/
def sampleEnv : Env :=
  { useStreamFlag := true
    getenv := fun _ => ""
    getuid := 1000
    readDir := fun _ => Except.ok ["abc"]
    join := fun parts => "/".intercalate parts
    dial := fun _ => none
    write := fun _ => none
    lines := [(100, "activewindow>>a"), (200, "activewindow>>b"), (5000, "activewindow>>c")]
    eof := 6000
    scanErr := none
    runTime := fun _ => 5
    hyprctl := fun n => if n = 0 then Except.ok "bad" else if n = 1 then Except.ok "ok"
      else Except.error "exit status 1"
    unmarshal := fun s => if s = "ok" then Except.ok ⟨"0x1", "1", "Inbox", "Firefox", 42⟩
      else Except.error "invalid character"
    login := fun _ => none
    setActivity := fun n _ => if n = 0 then some "broken pipe" else none }

/-- The sample environment started without `-use-stream-window`. -/
def staticEnv : Env :=
  { sampleEnv with useStreamFlag := false }

/-- The first `n` resolver outcomes from call number `q` on. -/
def resolutions (env : Env) (q n : Nat) : List (Except String ActiveWindow) :=
  (List.range n).map (fun i => resolution env (q + i))

/-- What `updateDiscordPresence` prints when its push is the `n`-th one and sends `a`. -/
def pushLog (env : Env) (n : Nat) (a : Activity) : List String :=
  match env.setActivity n a with
  | some e => ["Failed to update Discord presence: " ++ e]
  | none => []

/-- The activities the pending timers will push. -/
def pendingPushes (w : World) : List Activity :=
  w.timers.map (fun tm => activityOf w.startTime tm.activeWindow)

/-- The statuses passed to `debounceUpdate` in a run, in call order. -/
def submits : List Action → List String
  | [] => []
  | Action.submit s :: rest => s :: submits rest
  | Action.fire _ :: rest => submits rest
  | Action.tick _ :: rest => submits rest
  | Action.advance _ :: rest => submits rest

/-- The clock readings at which the `debounceUpdate` calls of a run are made. -/
def callInstants (env : Env) : World → List Action → List Nat
  | _, [] => []
  | w, a :: rest =>
    match a with
    | Action.submit _ => w.now :: callInstants env (step env w a) rest
    | _ => callInstants env (step env w a) rest

/-- Every `debounceUpdate` call of the run is made when no timer is pending, that is, after
the timer of the call before it has fired. -/
def callsAfterFire (env : Env) : World → List Action → Bool
  | _, [] => true
  | w, a :: rest =>
    match a with
    | Action.submit _ => w.timers.isEmpty && callsAfterFire env (step env w a) rest
    | _ => callsAfterFire env (step env w a) rest

/-- What a sequence of pushes prints when the first of them is push number `n`. -/
def reports (env : Env) : Nat → List Activity → List String
  | _, [] => []
  | n, a :: rest => pushLog env n a ++ reports env (n + 1) rest

/-- Between `w` and `w'` some activities were pushed and nothing was printed but the reports
of those that the sink rejected. -/
def Reported (env : Env) (w w' : World) : Prop :=
  ∃ acts : List Activity,
    w'.sent = w.sent ++ acts ∧ w'.stdout = w.stdout ++ reports env w.sent.length acts

/-- A run in which the second call comes 2000 ms after the first, before the first call's
timer has fired: calls at 0 and 2000 ms, every firing attempted afterwards. -/
def lateFireRun : List Action :=
  [Action.submit "a", Action.tick 2000, Action.submit "b", Action.fire 0, Action.tick 2000,
    Action.fire 1]

/-- A run in which each timer fires before the next call: calls at 100 and 2100 ms. -/
def orderlyRun : List Action :=
  [Action.tick 100, Action.submit "a", Action.tick 2000, Action.fire 0, Action.submit "b",
    Action.tick 2500, Action.fire 1]

/-- World `w'` comes after `w`: same start time, and the presence pushes made in between
are activities built by `activityOf` from that start time. -/
def Pushes (w w' : World) : Prop :=
  w'.startTime = w.startTime ∧
    ∃ statuses : List String, w'.sent = w.sent ++ statuses.map (activityOf w.startTime)

/-! ## Field lemmas -/

theorem updateDiscordPresence_sent (env : Env) (w : World) (a : String) :
    (updateDiscordPresence env w a).sent = w.sent ++ [activityOf w.startTime a] := by
  unfold updateDiscordPresence activityOf println
  dsimp only
  split <;> rfl

theorem updateDiscordPresence_frame (env : Env) (w : World) (a : String) :
    (updateDiscordPresence env w a).timers = w.timers ∧
    (updateDiscordPresence env w a).debounceTimer = w.debounceTimer ∧
    (updateDiscordPresence env w a).startTime = w.startTime ∧
    (updateDiscordPresence env w a).now = w.now ∧
    (updateDiscordPresence env w a).nextTimer = w.nextTimer ∧
    (updateDiscordPresence env w a).submitted = w.submitted ∧
    (updateDiscordPresence env w a).queries = w.queries ∧
    (updateDiscordPresence env w a).dials = w.dials ∧
    (updateDiscordPresence env w a).status = w.status ∧
    (updateDiscordPresence env w a).useStream = w.useStream := by
  unfold updateDiscordPresence println
  dsimp only
  split <;> simp

theorem debounceUpdate_fields (w : World) (a : String) :
    (debounceUpdate w a).debounceTimer = some w.nextTimer ∧
    (debounceUpdate w a).startTime = w.startTime ∧
    (debounceUpdate w a).now = w.now ∧
    (debounceUpdate w a).sent = w.sent ∧
    (debounceUpdate w a).stdout = w.stdout ∧
    (debounceUpdate w a).queries = w.queries ∧
    (debounceUpdate w a).submitted = w.submitted ++ [a] ∧
    (debounceUpdate w a).nextTimer = w.nextTimer + 1 := by
  unfold debounceUpdate afterFunc timerStop
  cases w.debounceTimer <;> simp

theorem debounceUpdate_timers (w : World) (a : String) (h : SingleSlot w) :
    (debounceUpdate w a).timers = [⟨w.nextTimer, w.now + 2000, a⟩] := by
  obtain ⟨hlen, hid⟩ := h
  unfold debounceUpdate afterFunc timerStop
  cases hd : w.debounceTimer with
  | none =>
    have : w.timers = [] := by
      cases ht : w.timers with
      | nil => rfl
      | cons tm rest =>
        have := hid tm (by simp [ht])
        simp [hd] at this
    simp [this]
  | some id =>
    have hall : ∀ tm ∈ w.timers, tm.id = id := by
      intro tm htm
      have := hid tm htm
      rw [hd] at this
      simp at this
      exact this.symm
    simpa using hall

/-! ## The prompt schedule on a coalescer holding at most one timer -/

theorem advanceTo_nil (env : Env) (t : Nat) (w : World) (h : w.timers = []) :
    advanceTo env t w = { w with now := max w.now t } := by
  cases w
  simp only at h
  subst h
  simp [advanceTo, runDue]

theorem advanceTo_single (env : Env) (t : Nat) (w : World) (tm : Timer) (h : w.timers = [tm]) :
    advanceTo env t w =
      if tm.when ≤ t then
        { updateDiscordPresence env { w with now := max w.now tm.when, timers := [] }
            tm.activeWindow with now := max (max w.now tm.when) t }
      else { w with now := max w.now t } := by
  cases w
  simp only at h
  subst h
  by_cases hdue : tm.when ≤ t
  · simp [advanceTo, runDue, earliestDue, fire, hdue, updateDiscordPresence_frame]
  · simp [advanceTo, runDue, earliestDue, hdue]

/-! ## The single-slot invariant -/

theorem SingleSlot.of_sublist {w w' : World} (h : SingleSlot w)
    (ht : w'.timers.Sublist w.timers) (hd : w'.debounceTimer = w.debounceTimer) :
    SingleSlot w' := by
  refine ⟨le_trans ht.length_le h.1, ?_⟩
  intro tm htm
  rw [hd]
  exact h.2 tm (ht.subset htm)

theorem fire_slot (env : Env) (w : World) (id : Nat) :
    (fire env w id).timers.Sublist w.timers ∧
      (fire env w id).debounceTimer = w.debounceTimer := by
  unfold fire
  split
  · exact ⟨List.Sublist.refl _, rfl⟩
  · split
    · simp only [updateDiscordPresence_frame]
      exact ⟨List.filter_sublist _, trivial⟩
    · exact ⟨List.Sublist.refl _, rfl⟩

theorem runDue_slot (env : Env) (t fuel : Nat) (w : World) :
    (runDue env t fuel w).timers.Sublist w.timers ∧
      (runDue env t fuel w).debounceTimer = w.debounceTimer := by
  induction fuel generalizing w with
  | zero => exact ⟨List.Sublist.refl _, rfl⟩
  | succ n ih =>
    unfold runDue
    split
    · exact ⟨List.Sublist.refl _, rfl⟩
    · rename_i tm _
      have h1 := ih (fire env { w with now := max w.now tm.when } tm.id)
      have h2 := fire_slot env { w with now := max w.now tm.when } tm.id
      exact ⟨h1.1.trans h2.1, h1.2.trans h2.2⟩

theorem advanceTo_slot (env : Env) (t : Nat) (w : World) :
    (advanceTo env t w).timers.Sublist w.timers ∧
      (advanceTo env t w).debounceTimer = w.debounceTimer :=
  runDue_slot env t w.timers.length w

theorem debounceUpdate_slot (w : World) (a : String) (h : SingleSlot w) :
    SingleSlot (debounceUpdate w a) := by
  have ht := debounceUpdate_timers w a h
  have hd := (debounceUpdate_fields w a).1
  refine ⟨by simp [ht], ?_⟩
  intro tm htm
  rw [ht] at htm
  simp at htm
  rw [hd, htm]

theorem init_slot (env : Env) (t0 : Nat) : SingleSlot (init env t0) := by
  simp [SingleSlot, init]

theorem step_slot (env : Env) (w : World) (a : Action) (h : SingleSlot w) :
    SingleSlot (step env w a) := by
  cases a with
  | submit s => exact debounceUpdate_slot w s h
  | fire id => exact h.of_sublist (fire_slot env w id).1 (fire_slot env w id).2
  | tick d => exact h.of_sublist (List.Sublist.refl _) rfl
  | advance t => exact h.of_sublist (advanceTo_slot env t w).1 (advanceTo_slot env t w).2

theorem steps_slot (env : Env) (w : World) (actions : List Action) (h : SingleSlot w) :
    SingleSlot (steps env w actions) := by
  induction actions generalizing w with
  | nil => exact h
  | cons a rest ih => exact ih (step env w a) (step_slot env w a h)

/-! ## Pushes only ever append activities anchored at the start time -/

theorem Pushes.refl (w : World) : Pushes w w :=
  ⟨rfl, [], by simp⟩

theorem Pushes.of_eq {w w' : World} (hs : w'.startTime = w.startTime)
    (hsent : w'.sent = w.sent) : Pushes w w' :=
  ⟨hs, [], by simp [hsent]⟩

theorem Pushes.trans {w₁ w₂ w₃ : World} (h₁ : Pushes w₁ w₂) (h₂ : Pushes w₂ w₃) :
    Pushes w₁ w₃ := by
  obtain ⟨hs₁, l₁, hl₁⟩ := h₁
  obtain ⟨hs₂, l₂, hl₂⟩ := h₂
  refine ⟨hs₂.trans hs₁, l₁ ++ l₂, ?_⟩
  rw [hl₂, hl₁, hs₁]
  simp

theorem updateDiscordPresence_pushes (env : Env) (w : World) (a : String) :
    Pushes w (updateDiscordPresence env w a) :=
  ⟨(updateDiscordPresence_frame env w a).2.2.1, [a], by
    simp [updateDiscordPresence_sent]⟩

theorem fire_pushes (env : Env) (w : World) (id : Nat) : Pushes w (fire env w id) := by
  unfold fire
  split
  · exact Pushes.refl w
  · split
    · rename_i tm _ _
      exact (Pushes.of_eq rfl rfl).trans
        (updateDiscordPresence_pushes env
          { w with timers := w.timers.filter (fun x => x.id ≠ id) } tm.activeWindow)
    · exact Pushes.refl w

theorem runDue_pushes (env : Env) (t fuel : Nat) (w : World) :
    Pushes w (runDue env t fuel w) := by
  induction fuel generalizing w with
  | zero => exact Pushes.refl w
  | succ n ih =>
    unfold runDue
    split
    · exact Pushes.refl w
    · rename_i tm _
      exact ((Pushes.of_eq rfl rfl).trans
        (fire_pushes env { w with now := max w.now tm.when } tm.id)).trans (ih _)

theorem advanceTo_pushes (env : Env) (t : Nat) (w : World) : Pushes w (advanceTo env t w) :=
  (runDue_pushes env t w.timers.length w).trans (Pushes.of_eq rfl rfl)

theorem debounceUpdate_pushes (w : World) (a : String) : Pushes w (debounceUpdate w a) :=
  Pushes.of_eq (debounceUpdate_fields w a).2.1 (debounceUpdate_fields w a).2.2.2.1

theorem step_pushes (env : Env) (w : World) (a : Action) : Pushes w (step env w a) := by
  cases a with
  | submit s => exact debounceUpdate_pushes w s
  | fire id => exact fire_pushes env w id
  | tick d => exact Pushes.of_eq rfl rfl
  | advance t => exact advanceTo_pushes env t w

theorem steps_pushes (env : Env) (w : World) (actions : List Action) :
    Pushes w (steps env w actions) := by
  induction actions generalizing w with
  | nil => exact Pushes.refl w
  | cons a rest ih => exact (step_pushes env w a).trans (ih (step env w a))

theorem getActiveWindowDetails_world (env : Env) (w : World) :
    (getActiveWindowDetails env w).1 = { w with queries := w.queries + 1 } := by
  unfold getActiveWindowDetails
  dsimp only
  split
  · rfl
  · split <;> rfl

theorem getActiveWindowDetails_result (env : Env) (w : World) :
    (getActiveWindowDetails env w).2 = resolution env w.queries := by
  unfold resolution getActiveWindowDetails
  dsimp only
  split
  · rfl
  · split <;> rfl

theorem scanLoop_pushes (env : Env) (w : World) (lines : List (Nat × String)) :
    Pushes w (scanLoop env w lines) := by
  induction lines generalizing w with
  | nil => exact advanceTo_pushes env env.eof w
  | cons l rest ih =>
    obtain ⟨t, line⟩ := l
    unfold scanLoop
    have hw := getActiveWindowDetails_world env (advanceTo env t w)
    have h0 : Pushes w (getActiveWindowDetails env (advanceTo env t w)).1 := by
      rw [hw]
      exact (advanceTo_pushes env t w).trans (Pushes.of_eq rfl rfl)
    dsimp only
    split
    · rename_i w1 err heq
      rw [heq] at h0
      exact ((h0.trans (advanceTo_pushes env _ w1)).trans (Pushes.of_eq rfl rfl)).trans (ih _)
    · rename_i w1 window heq
      rw [heq] at h0
      exact ((h0.trans (advanceTo_pushes env _ w1)).trans
        (debounceUpdate_pushes _ _)).trans (ih _)

theorem getHyprlandSocketPath_pushes (env : Env) (w : World) :
    Pushes w (getHyprlandSocketPath env w).1 := by
  unfold getHyprlandSocketPath
  dsimp only
  split <;> exact Pushes.of_eq rfl rfl

theorem listenForActiveWindowChanges_pushes (env : Env) (w : World) :
    Pushes w (listenForActiveWindowChanges env w) := by
  unfold listenForActiveWindowChanges
  have h0 := getHyprlandSocketPath_pushes env w
  split
  · rename_i w1 heq
    rw [heq] at h0
    exact h0
  · rename_i w1 socketPath heq
    rw [heq] at h0
    dsimp only
    split
    · exact h0.trans (Pushes.of_eq rfl rfl)
    · split
      · exact h0.trans (Pushes.of_eq rfl rfl)
      · have h4 := scanLoop_pushes env
          (println { w1 with dials := w1.dials ++ [socketPath] }
            "Listening for active window changes...") env.lines
        have h3 : Pushes w (println { w1 with dials := w1.dials ++ [socketPath] }
            "Listening for active window changes...") := h0.trans (Pushes.of_eq rfl rfl)
        split
        · exact (h3.trans h4).trans (Pushes.of_eq rfl rfl)
        · exact h3.trans h4

theorem main_pushes (env : Env) (w : World) : Pushes w (main env w) := by
  unfold main
  split
  · exact Pushes.of_eq rfl rfl
  · split
    · have h := listenForActiveWindowChanges_pushes env w
      dsimp only
      split
      · exact h
      · exact h.trans (Pushes.of_eq rfl rfl)
    · exact (updateDiscordPresence_pushes env w _).trans (Pushes.of_eq rfl rfl)

/-! ## What timer firings leave alone -/

theorem fire_frame (env : Env) (w : World) (id : Nat) :
    (fire env w id).submitted = w.submitted ∧ (fire env w id).queries = w.queries := by
  unfold fire
  split
  · exact ⟨rfl, rfl⟩
  · split
    · simp [updateDiscordPresence_frame]
    · exact ⟨rfl, rfl⟩

theorem runDue_frame (env : Env) (t fuel : Nat) (w : World) :
    (runDue env t fuel w).submitted = w.submitted ∧
      (runDue env t fuel w).queries = w.queries := by
  induction fuel generalizing w with
  | zero => exact ⟨rfl, rfl⟩
  | succ n ih =>
    unfold runDue
    split
    · exact ⟨rfl, rfl⟩
    · rename_i tm _
      have h1 := ih (fire env { w with now := max w.now tm.when } tm.id)
      have h2 := fire_frame env { w with now := max w.now tm.when } tm.id
      exact ⟨h1.1.trans h2.1, h1.2.trans h2.2⟩

theorem advanceTo_frame (env : Env) (t : Nat) (w : World) :
    (advanceTo env t w).submitted = w.submitted ∧ (advanceTo env t w).queries = w.queries :=
  runDue_frame env t w.timers.length w

theorem step_idle (env : Env) (w : World) (a : Action) (h : w.timers = [])
    (ha : ∀ s, a ≠ Action.submit s) :
    (step env w a).timers = [] ∧ (step env w a).sent = w.sent := by
  cases a with
  | submit s => exact absurd rfl (ha s)
  | fire id => simp [step, fire, h]
  | tick d => exact ⟨h, rfl⟩
  | advance t => simp [step, advanceTo_nil env t w h, h]

theorem steps_idle (env : Env) (w : World) (actions : List Action) (h : w.timers = [])
    (ha : ∀ a ∈ actions, ∀ s, a ≠ Action.submit s) :
    (steps env w actions).sent = w.sent := by
  induction actions generalizing w with
  | nil => rfl
  | cons a rest ih =>
    have h1 := step_idle env w a h (ha a (by simp))
    have h2 := ih (step env w a) h1.1 (fun b hb => ha b (by simp [hb]))
    exact h2.trans h1.2

theorem resolutions_succ (env : Env) (q n : Nat) :
    resolutions env q (n + 1) = resolution env q :: resolutions env (q + 1) n := by
  unfold resolutions
  rw [List.range_succ_eq_map]
  simp [Function.comp_def, Nat.add_assoc, Nat.add_comm 1]

theorem scanLoop_trace (env : Env) (w : World) (lines : List (Nat × String)) :
    (scanLoop env w lines).submitted =
        w.submitted ++ (resolutions env w.queries lines.length).filterMap submission ∧
      (scanLoop env w lines).queries = w.queries + lines.length := by
  induction lines generalizing w with
  | nil => simp [scanLoop, resolutions, advanceTo_frame]
  | cons l rest ih =>
    obtain ⟨t, line⟩ := l
    have hf := advanceTo_frame env t w
    have hw := getActiveWindowDetails_world env (advanceTo env t w)
    have hr := getActiveWindowDetails_result env (advanceTo env t w)
    rw [hf.2] at hr
    unfold scanLoop
    dsimp only
    rw [List.length_cons, resolutions_succ]
    split
    · rename_i w1 err heq
      rw [heq] at hw hr
      simp only at hw hr
      have hg := advanceTo_frame env (w1.now + env.runTime (advanceTo env t w).queries) w1
      have h := ih (println (advanceTo env (w1.now + env.runTime (advanceTo env t w).queries) w1)
        ("Error fetching active window details: " ++ err))
      have hq : (println (advanceTo env (w1.now + env.runTime (advanceTo env t w).queries) w1)
          ("Error fetching active window details: " ++ err)).queries = w.queries + 1 := by
        show (advanceTo env _ w1).queries = _
        rw [hg.2, hw]; simp [hf.2]
      have hs : (println (advanceTo env (w1.now + env.runTime (advanceTo env t w).queries) w1)
          ("Error fetching active window details: " ++ err)).submitted = w.submitted := by
        show (advanceTo env _ w1).submitted = _
        rw [hg.1, hw]; simp [hf.1]
      rw [hq, hs] at h
      rw [h.1, h.2, ← hr]
      simp [submission, Nat.add_assoc, Nat.add_comm 1]
    · rename_i w1 window heq
      rw [heq] at hw hr
      simp only at hw hr
      have hg := advanceTo_frame env (w1.now + env.runTime (advanceTo env t w).queries) w1
      have h := ih (debounceUpdate
        (advanceTo env (w1.now + env.runTime (advanceTo env t w).queries) w1)
        (getActiveWindowTitle window.Title window.Class))
      have hd := debounceUpdate_fields
        (advanceTo env (w1.now + env.runTime (advanceTo env t w).queries) w1)
        (getActiveWindowTitle window.Title window.Class)
      have hq : w1.queries = w.queries + 1 := by rw [hw]; simp [hf.2]
      have hs : w1.submitted = w.submitted := by rw [hw]; simp [hf.1]
      rw [hd.2.2.2.2.2.1, hd.2.2.2.2.2.2.1, hg.1, hg.2, hq, hs] at h
      rw [h.1, h.2, ← hr]
      simp [submission, Nat.add_assoc, Nat.add_comm 1]

/-! ## One timestamped call under the prompt schedule -/

theorem updateDiscordPresence_stdout (env : Env) (w : World) (a : String) :
    (updateDiscordPresence env w a).stdout =
      w.stdout ++ pushLog env w.sent.length (activityOf w.startTime a) := by
  unfold updateDiscordPresence pushLog activityOf println
  dsimp only
  split <;> simp

theorem step_outcome (env : Env) (w : World) (a : Action) (hlen : w.timers.length ≤ 1)
    (ha : ∀ s, a ≠ Action.submit s) :
    w.now ≤ (step env w a).now ∧ (step env w a).startTime = w.startTime ∧
    (((step env w a).timers = w.timers ∧ (step env w a).sent = w.sent) ∨
      ∃ tm, w.timers = [tm] ∧ tm.when ≤ (step env w a).now ∧ (step env w a).timers = [] ∧
        (step env w a).sent = w.sent ++ [activityOf w.startTime tm.activeWindow]) := by
  have hshape : w.timers = [] ∨ ∃ tm, w.timers = [tm] := by
    cases ht : w.timers with
    | nil => exact Or.inl rfl
    | cons tm rest =>
      cases rest with
      | nil => exact Or.inr ⟨tm, rfl⟩
      | cons tm' rest' =>
        rw [ht] at hlen
        simp at hlen
  cases a with
  | submit s => exact absurd rfl (ha s)
  | tick d => exact ⟨Nat.le_add_right _ _, rfl, Or.inl ⟨rfl, rfl⟩⟩
  | fire id =>
    rcases hshape with h | ⟨tm, h⟩
    · simp [step, fire, h]
    · by_cases hid : tm.id = id
      · by_cases hdue : tm.when ≤ w.now
        · have hf := updateDiscordPresence_frame env
            { w with timers := w.timers.filter (fun x => x.id ≠ id) } tm.activeWindow
          have hs := updateDiscordPresence_sent env
            { w with timers := w.timers.filter (fun x => x.id ≠ id) } tm.activeWindow
          have hfire : fire env w id = updateDiscordPresence env
              { w with timers := w.timers.filter (fun x => x.id ≠ id) } tm.activeWindow := by
            simp [fire, h, hid, hdue]
          refine ⟨?_, ?_, Or.inr ⟨tm, h, ?_, ?_, ?_⟩⟩
          · show w.now ≤ (fire env w id).now
            rw [hfire, hf.2.2.2.1]
          · show (fire env w id).startTime = w.startTime
            rw [hfire, hf.2.2.1]
          · show tm.when ≤ (fire env w id).now
            rw [hfire, hf.2.2.2.1]
            exact hdue
          · show (fire env w id).timers = []
            rw [hfire, hf.1]
            simp [h, hid]
          · show (fire env w id).sent = _
            rw [hfire, hs]
        · have hfire : fire env w id = w := by simp [fire, h, hid, hdue]
          exact ⟨by show w.now ≤ (fire env w id).now; rw [hfire],
            by show (fire env w id).startTime = _; rw [hfire],
            Or.inl ⟨by show (fire env w id).timers = _; rw [hfire],
              by show (fire env w id).sent = _; rw [hfire]⟩⟩
      · have hfire : fire env w id = w := by simp [fire, h, hid]
        exact ⟨by show w.now ≤ (fire env w id).now; rw [hfire],
          by show (fire env w id).startTime = _; rw [hfire],
          Or.inl ⟨by show (fire env w id).timers = _; rw [hfire],
            by show (fire env w id).sent = _; rw [hfire]⟩⟩
  | advance t =>
    rcases hshape with h | ⟨tm, h⟩
    · have hadv : step env w (Action.advance t) = { w with now := max w.now t } :=
        advanceTo_nil env t w h
      rw [hadv]
      exact ⟨le_max_left _ _, rfl, Or.inl ⟨rfl, rfl⟩⟩
    · have hadv : step env w (Action.advance t) = _ := advanceTo_single env t w tm h
      by_cases hdue : tm.when ≤ t
      · rw [if_pos hdue] at hadv
        have hf := updateDiscordPresence_frame env
          { w with now := max w.now tm.when, timers := [] } tm.activeWindow
        have hs := updateDiscordPresence_sent env
          { w with now := max w.now tm.when, timers := [] } tm.activeWindow
        rw [hadv]
        refine ⟨?_, hf.2.2.1, Or.inr ⟨tm, h, ?_, hf.1, hs⟩⟩
        · exact le_trans (le_max_left _ _) (le_max_left _ _)
        · exact le_trans (le_max_right _ _) (le_max_left _ _)
      · rw [if_neg hdue] at hadv
        rw [hadv]
        exact ⟨le_max_left _ _, rfl, Or.inl ⟨rfl, rfl⟩⟩

theorem step_keeps (env : Env) (w : World) (a : Action) (hlen : w.timers.length ≤ 1)
    (ha : ∀ s, a ≠ Action.submit s) :
    (step env w a).timers.length ≤ 1 ∧ (step env w a).startTime = w.startTime ∧
    (step env w a).sent ++ pendingPushes (step env w a) = w.sent ++ pendingPushes w ∧
    w.now ≤ (step env w a).now ∧
    ∀ tm ∈ w.timers, tm ∈ (step env w a).timers ∨ tm.when ≤ (step env w a).now := by
  obtain ⟨hnow, hstart, hcase⟩ := step_outcome env w a hlen ha
  rcases hcase with ⟨ht, hs⟩ | ⟨tm, hw, hdue, ht, hs⟩
  · refine ⟨by rw [ht]; exact hlen, hstart, ?_, hnow,
      fun tm htm => Or.inl (by rw [ht]; exact htm)⟩
    simp [pendingPushes, ht, hs, hstart]
  · refine ⟨by simp [ht], hstart, ?_, hnow, ?_⟩
    · simp [pendingPushes, ht, hs, hw]
    · intro tm' htm'
      rw [hw] at htm'
      simp at htm'
      exact Or.inr (by rw [htm']; exact hdue)

theorem callsAfterFire_cons (env : Env) (w : World) (a : Action) (rest : List Action)
    (ha : ∀ s, a ≠ Action.submit s) :
    callsAfterFire env w (a :: rest) = callsAfterFire env (step env w a) rest ∧
    callInstants env w (a :: rest) = callInstants env (step env w a) rest ∧
    submits (a :: rest) = submits rest := by
  cases a with
  | submit s => exact absurd rfl (ha s)
  | fire id => exact ⟨rfl, rfl, rfl⟩
  | tick d => exact ⟨rfl, rfl, rfl⟩
  | advance t => exact ⟨rfl, rfl, rfl⟩

theorem callsAfterFire_submit (env : Env) (w : World) (s : String) (rest : List Action)
    (h : callsAfterFire env w (Action.submit s :: rest) = true) :
    w.timers = [] ∧ callsAfterFire env (debounceUpdate w s) rest = true := by
  simp only [callsAfterFire, Bool.and_eq_true, List.isEmpty_iff] at h
  exact h

theorem submit_idle (w : World) (s : String) (h : w.timers = []) :
    (debounceUpdate w s).timers = [⟨w.nextTimer, w.now + 2000, s⟩] ∧
    (debounceUpdate w s).startTime = w.startTime ∧
    (debounceUpdate w s).now = w.now ∧
    (debounceUpdate w s).sent = w.sent := by
  have hslot : SingleSlot w := by simp [SingleSlot, h]
  have hf := debounceUpdate_fields w s
  exact ⟨debounceUpdate_timers w s hslot, hf.2.1, hf.2.2.1, hf.2.2.2.1⟩

theorem steps_per_call (env : Env) (actions : List Action) (w : World)
    (hlen : w.timers.length ≤ 1) (h : callsAfterFire env w actions = true) :
    (steps env w actions).startTime = w.startTime ∧
    (steps env w actions).sent ++ pendingPushes (steps env w actions) =
      w.sent ++ pendingPushes w ++ (submits actions).map (activityOf w.startTime) := by
  induction actions generalizing w with
  | nil => simp [steps, submits]
  | cons a rest ih =>
    have hsteps : steps env w (a :: rest) = steps env (step env w a) rest := rfl
    rw [hsteps]
    by_cases hsub : ∃ s, a = Action.submit s
    · obtain ⟨s, rfl⟩ := hsub
      obtain ⟨hidle, hrest⟩ := callsAfterFire_submit env w s rest h
      obtain ⟨ht, hstart, _, hsent⟩ := submit_idle w s hidle
      have hi := ih (debounceUpdate w s) (by rw [ht]; simp) hrest
      refine ⟨hi.1.trans hstart, ?_⟩
      show (steps env (debounceUpdate w s) rest).sent ++
        pendingPushes (steps env (debounceUpdate w s) rest) = _
      rw [hi.2, hsent, hstart]
      simp [pendingPushes, ht, hidle, hstart, submits]
    · have ha : ∀ s, a ≠ Action.submit s := fun s hs => hsub ⟨s, hs⟩
      obtain ⟨hc, _, hsb⟩ := callsAfterFire_cons env w a rest ha
      obtain ⟨hl, hstart, hkeep, _, _⟩ := step_keeps env w a hlen ha
      have hi := ih (step env w a) hl (by rw [← hc]; exact h)
      refine ⟨hi.1.trans hstart, ?_⟩
      rw [hi.2, hkeep, hstart, hsb]

theorem steps_call_gaps (env : Env) (actions : List Action) (w : World)
    (hlen : w.timers.length ≤ 1) (h : callsAfterFire env w actions = true) :
    (∀ t ∈ callInstants env w actions, w.now ≤ t ∧ ∀ tm ∈ w.timers, tm.when ≤ t) ∧
    List.Chain' (fun a b : Nat => a + 2000 ≤ b) (callInstants env w actions) := by
  induction actions generalizing w with
  | nil => simp [callInstants]
  | cons a rest ih =>
    by_cases hsub : ∃ s, a = Action.submit s
    · obtain ⟨s, rfl⟩ := hsub
      obtain ⟨hidle, hrest⟩ := callsAfterFire_submit env w s rest h
      obtain ⟨ht, _, hnow, _⟩ := submit_idle w s hidle
      obtain ⟨hall, hchain⟩ := ih (debounceUpdate w s) (by rw [ht]; simp) hrest
      have hci : callInstants env w (Action.submit s :: rest) =
          w.now :: callInstants env (debounceUpdate w s) rest := rfl
      rw [hci]
      have hge : ∀ t ∈ callInstants env (debounceUpdate w s) rest, w.now + 2000 ≤ t := by
        intro t htm
        have := (hall t htm).2 ⟨w.nextTimer, w.now + 2000, s⟩ (by rw [ht]; simp)
        exact this
      refine ⟨?_, ?_⟩
      · intro t htm
        rw [hidle]
        simp only [List.mem_cons] at htm
        rcases htm with rfl | htm
        · exact ⟨le_refl _, by simp⟩
        · exact ⟨by have := hge t htm; omega, by simp⟩
      · rw [List.chain'_cons']
        exact ⟨fun y hy => hge y (List.mem_of_mem_head? hy), hchain⟩
    · have ha : ∀ s, a ≠ Action.submit s := fun s hs => hsub ⟨s, hs⟩
      obtain ⟨hc, hci, _⟩ := callsAfterFire_cons env w a rest ha
      obtain ⟨hl, _, _, hnow, hdue⟩ := step_keeps env w a hlen ha
      obtain ⟨hall, hchain⟩ := ih (step env w a) hl (by rw [← hc]; exact h)
      rw [hci]
      refine ⟨?_, hchain⟩
      intro t htm
      obtain ⟨h1, h2⟩ := hall t htm
      refine ⟨le_trans hnow h1, ?_⟩
      intro tm htm'
      rcases hdue tm htm' with hin | hle
      · exact h2 tm hin
      · exact le_trans hle h1

/-! ## What a run prints -/

theorem reports_append (env : Env) (n : Nat) (xs ys : List Activity) :
    reports env n (xs ++ ys) = reports env n xs ++ reports env (n + xs.length) ys := by
  induction xs generalizing n with
  | nil => simp [reports]
  | cons x rest ih =>
    simp [reports, ih, Nat.add_assoc, Nat.add_comm 1]

theorem reported_refl (env : Env) (w : World) : Reported env w w :=
  ⟨[], by simp, by simp [reports]⟩

theorem reported_of_eq (env : Env) {w w' : World} (hs : w'.sent = w.sent)
    (ho : w'.stdout = w.stdout) : Reported env w w' :=
  ⟨[], by simp [hs], by simp [reports, ho]⟩

theorem reported_trans {env : Env} {w₁ w₂ w₃ : World} (h₁ : Reported env w₁ w₂)
    (h₂ : Reported env w₂ w₃) : Reported env w₁ w₃ := by
  obtain ⟨l₁, hs₁, ho₁⟩ := h₁
  obtain ⟨l₂, hs₂, ho₂⟩ := h₂
  refine ⟨l₁ ++ l₂, ?_, ?_⟩
  · rw [hs₂, hs₁, List.append_assoc]
  · rw [ho₂, ho₁, hs₁, reports_append, List.length_append, List.append_assoc]

theorem updateDiscordPresence_reported (env : Env) (w : World) (a : String) :
    Reported env w (updateDiscordPresence env w a) :=
  ⟨[activityOf w.startTime a], updateDiscordPresence_sent env w a, by
    rw [updateDiscordPresence_stdout]
    simp [reports]⟩

theorem fire_reported (env : Env) (w : World) (id : Nat) : Reported env w (fire env w id) := by
  unfold fire
  split
  · exact reported_refl env w
  · split
    · rename_i tm _ _
      exact reported_trans (reported_of_eq env rfl rfl)
        (updateDiscordPresence_reported env
          { w with timers := w.timers.filter (fun x => x.id ≠ id) } tm.activeWindow)
    · exact reported_refl env w

theorem runDue_reported (env : Env) (t fuel : Nat) (w : World) :
    Reported env w (runDue env t fuel w) := by
  induction fuel generalizing w with
  | zero => exact reported_refl env w
  | succ n ih =>
    unfold runDue
    split
    · exact reported_refl env w
    · rename_i tm _
      exact reported_trans (reported_trans (reported_of_eq env rfl rfl)
        (fire_reported env { w with now := max w.now tm.when } tm.id)) (ih _)

theorem step_reported (env : Env) (w : World) (a : Action) : Reported env w (step env w a) := by
  cases a with
  | submit s =>
    exact reported_of_eq env (debounceUpdate_fields w s).2.2.2.1
      (debounceUpdate_fields w s).2.2.2.2.1
  | fire id => exact fire_reported env w id
  | tick d => exact reported_of_eq env rfl rfl
  | advance t =>
    exact reported_trans (runDue_reported env t w.timers.length w)
      (reported_of_eq env rfl rfl)

theorem steps_reported (env : Env) (w : World) (actions : List Action) :
    Reported env w (steps env w actions) := by
  induction actions generalizing w with
  | nil => exact reported_refl env w
  | cons a rest ih => exact reported_trans (step_reported env w a) (ih (step env w a))

/-! ## Status derivation and metadata resolution -/

/-- C1: `getActiveWindowTitle` is a total function of `(title, class)`: a non-empty title
gives "Opening " followed by the title whatever the class is, otherwise a non-empty class
gives "Opening " followed by the class, otherwise the placeholder "No window opened";
with the three sample values of the specification. -/
theorem getActiveWindowTitle_spec (title windowClass : String) :
    (title ≠ "" → getActiveWindowTitle title windowClass = "Opening " ++ title) ∧
    (title = "" → windowClass ≠ "" →
      getActiveWindowTitle title windowClass = "Opening " ++ windowClass) ∧
    (title = "" → windowClass = "" →
      getActiveWindowTitle title windowClass = "No window opened") ∧
    getActiveWindowTitle "" "" = "No window opened" ∧
    getActiveWindowTitle "" "Firefox" = "Opening Firefox" ∧
    getActiveWindowTitle "Inbox" "Firefox" = "Opening Inbox" := by
  refine ⟨?_, ?_, ?_, by decide, by decide, by decide⟩
  · intro h
    simp [getActiveWindowTitle, h]
  · intro h1 h2
    simp [getActiveWindowTitle, h1, h2]
  · intro h1 h2
    simp [getActiveWindowTitle, h1, h2]

/-- C9: `getActiveWindowDetails` fails exactly when the command fails to run or its output
does not parse.  A failed command gives "failed to run hyprctl" and no window, whatever
the decoder is (no output is parsed); output that does not parse gives "failed to parse
JSON" and no window; otherwise the parsed window and no error.  Every call runs the
command exactly once. -/
theorem getActiveWindowDetails_spec (env : Env) (w : World) :
    (∀ err, env.hyprctl w.queries = Except.error err →
      ∀ decoder : String → Except String ActiveWindow,
        (getActiveWindowDetails { env with unmarshal := decoder } w).2 =
          Except.error ("failed to run hyprctl: " ++ err)) ∧
    (∀ out err, env.hyprctl w.queries = Except.ok out → env.unmarshal out = Except.error err →
      (getActiveWindowDetails env w).2 = Except.error ("failed to parse JSON: " ++ err)) ∧
    (∀ out window, env.hyprctl w.queries = Except.ok out →
      env.unmarshal out = Except.ok window →
      (getActiveWindowDetails env w).2 = Except.ok window) ∧
    ((∃ e, (getActiveWindowDetails env w).2 = Except.error e) ↔
      ((∃ err, env.hyprctl w.queries = Except.error err) ∨
        ∃ out err, env.hyprctl w.queries = Except.ok out ∧
          env.unmarshal out = Except.error err)) ∧
    (getActiveWindowDetails env w).1 = { w with queries := w.queries + 1 } := by
  refine ⟨?_, ?_, ?_, ?_, getActiveWindowDetails_world env w⟩
  · intro err h decoder
    simp [getActiveWindowDetails, h]
  · intro out err h1 h2
    simp [getActiveWindowDetails, h1, h2]
  · intro out window h1 h2
    simp [getActiveWindowDetails, h1, h2]
  · unfold getActiveWindowDetails
    cases h1 : env.hyprctl w.queries with
    | error err => simp
    | ok out =>
      cases h2 : env.unmarshal out with
      | error err => simp [h2]
      | ok window => simp [h2]

/-! ## The coalescer slot and the presence activity -/

/-- C4: in every state reached from the initial one by any sequence of `debounceUpdate`
calls, timer firings and passages of time, at most one timer is pending and it is the one
held in `debounceTimer`; a further `debounceUpdate` leaves exactly the timer it has just
created, stored in `debounceTimer`. -/
theorem debounce_single_pending (env : Env) (t0 : Nat) (actions : List Action) (a : String) :
    (steps env (init env t0) actions).timers.length ≤ 1 ∧
    (∀ tm ∈ (steps env (init env t0) actions).timers,
      (steps env (init env t0) actions).debounceTimer = some tm.id) ∧
    (debounceUpdate (steps env (init env t0) actions) a).timers =
      [⟨(steps env (init env t0) actions).nextTimer,
        (steps env (init env t0) actions).now + 2000, a⟩] ∧
    (debounceUpdate (steps env (init env t0) actions) a).debounceTimer =
      some (steps env (init env t0) actions).nextTimer := by
  have h := steps_slot env (init env t0) actions (init_slot env t0)
  exact ⟨h.1, h.2, debounceUpdate_timers _ a h, (debounceUpdate_fields _ a).1⟩

/-- C8: the activity `updateDiscordPresence` sends for a status has that status as `State`,
the fixed `Details`, `LargeImage` and `LargeText`, and the current `startTime` as start
timestamp.  `init` sets `startTime`; `updateDiscordPresence`, `debounceUpdate` and the
event pump leave it unchanged, so after `main` and whatever follows it every activity
pushed by the process carries the start time set by `init`. -/
theorem updateDiscordPresence_activity (env : Env) (w : World) (s : String) (t0 : Nat)
    (actions : List Action) :
    (updateDiscordPresence env w s).sent = w.sent ++
      [{ State := s, Details := "Using Hyprland on NixOS", LargeImage := "hyprland-dark",
         LargeText := "Hyprland", Start := w.startTime }] ∧
    (init env t0).startTime = t0 ∧
    (updateDiscordPresence env w s).startTime = w.startTime ∧
    (debounceUpdate w s).startTime = w.startTime ∧
    (listenForActiveWindowChanges env w).startTime = w.startTime ∧
    (steps env (main env (init env t0)) actions).startTime = t0 ∧
    ∀ a ∈ (steps env (main env (init env t0)) actions).sent, a.Start = t0 := by
  have hp : Pushes (init env t0) (steps env (main env (init env t0)) actions) :=
    (main_pushes env (init env t0)).trans (steps_pushes env _ actions)
  refine ⟨updateDiscordPresence_sent env w s, rfl, (updateDiscordPresence_frame env w s).2.2.1,
    (debounceUpdate_fields w s).2.1, (listenForActiveWindowChanges_pushes env w).1, hp.1, ?_⟩
  obtain ⟨_, statuses, hsent⟩ := hp
  intro a ha
  rw [hsent] at ha
  simp [init, activityOf] at ha
  obtain ⟨x, _, rfl⟩ := ha
  rfl

/-! ## Debouncing -/

/-- C3, as stated, fails: two calls exactly 2000 ms apart, the second made before the first
call's timer has fired, then every timer fired; the only forward is the second status, one
forward for two calls. -/
theorem debounce_spaced_late_fire_cancelled :
    callInstants sampleEnv (init sampleEnv 0) lateFireRun = [0, 2000] ∧
    submits lateFireRun = ["a", "b"] ∧
    (steps sampleEnv (init sampleEnv 0) lateFireRun).timers = [] ∧
    (steps sampleEnv (init sampleEnv 0) lateFireRun).sent = [activityOf 0 "b"] ∧
    (steps sampleEnv (init sampleEnv 0) lateFireRun).sent.length ≠
      (submits lateFireRun).length := by
  decide

/-- C3, amended: from a coalescer with nothing pending, under any schedule, if every
`debounceUpdate` call is made after the timer of the call before it has fired, and the last
timer has fired too, then the calls are at least 2000 ms apart and one activity is forwarded
per call: as many forwards as calls, the k-th forward carrying the k-th call's status. -/
theorem debounce_forwards_each_fired_call (env : Env) (w : World) (actions : List Action)
    (hidle : w.timers = []) (hfired : callsAfterFire env w actions = true)
    (hend : (steps env w actions).timers = []) :
    List.Chain' (fun a b : Nat => a + 2000 ≤ b) (callInstants env w actions) ∧
    (steps env w actions).sent = w.sent ++ (submits actions).map (activityOf w.startTime) ∧
    (steps env w actions).sent.length = w.sent.length + (submits actions).length ∧
    ((steps env w actions).sent.drop w.sent.length).map (fun a => a.State) =
      submits actions := by
  have hlen : w.timers.length ≤ 1 := by simp [hidle]
  have hsent : (steps env w actions).sent =
      w.sent ++ (submits actions).map (activityOf w.startTime) := by
    have h := (steps_per_call env actions w hlen hfired).2
    simpa [pendingPushes, hend, hidle] using h
  refine ⟨(steps_call_gaps env actions w hlen hfired).2, hsent, ?_, ?_⟩
  · rw [hsent]
    simp
  · rw [hsent]
    simp [activityOf, Function.comp_def]

/-- Witness for C3, amended: calls at 100 and 2100 ms, each timer fired before the next call. -/
theorem debounce_forwards_each_fired_call_witness :
    (steps sampleEnv (init sampleEnv 0) orderlyRun).sent =
      [activityOf 0 "a", activityOf 0 "b"] :=
  (debounce_forwards_each_fired_call sampleEnv (init sampleEnv 0) orderlyRun rfl
    (by decide) (by decide)).2.1

/-- C7: `updateDiscordPresence` returns with the pending timers, `debounceTimer` and the
process status unchanged whether or not the sink rejects the push.  Under any schedule, for
two calls from an idle coalescer, the second made after the first call's timer has fired
and its push has been rejected with error `e`, the second push being accepted: the calls
are at least 2000 ms apart, both pushes are made, in order, each with its own status, and
the only line printed is the report of the first failure. -/
theorem push_failure_keeps_pushing (env : Env) (w : World) (actions : List Action)
    (s1 s2 e : String)
    (hidle : w.timers = []) (hcalls : submits actions = [s1, s2])
    (hfired : callsAfterFire env w actions = true)
    (hend : (steps env w actions).timers = [])
    (hfail : env.setActivity w.sent.length (activityOf w.startTime s1) = some e)
    (hok : env.setActivity (w.sent.length + 1) (activityOf w.startTime s2) = none) :
    (∀ (w' : World) (a : String),
      (updateDiscordPresence env w' a).timers = w'.timers ∧
      (updateDiscordPresence env w' a).debounceTimer = w'.debounceTimer ∧
      (updateDiscordPresence env w' a).status = w'.status) ∧
    List.Chain' (fun a b : Nat => a + 2000 ≤ b) (callInstants env w actions) ∧
    (steps env w actions).sent =
      w.sent ++ [activityOf w.startTime s1, activityOf w.startTime s2] ∧
    (steps env w actions).stdout =
      w.stdout ++ ["Failed to update Discord presence: " ++ e] := by
  have hlen : w.timers.length ≤ 1 := by simp [hidle]
  have hsent : (steps env w actions).sent =
      w.sent ++ [activityOf w.startTime s1, activityOf w.startTime s2] := by
    have h := (steps_per_call env actions w hlen hfired).2
    simpa [pendingPushes, hend, hidle, hcalls] using h
  refine ⟨fun w' a => ⟨(updateDiscordPresence_frame env w' a).1,
    (updateDiscordPresence_frame env w' a).2.1,
    (updateDiscordPresence_frame env w' a).2.2.2.2.2.2.2.2.1⟩,
    (steps_call_gaps env actions w hlen hfired).2, hsent, ?_⟩
  obtain ⟨acts, ha, ho⟩ := steps_reported env w actions
  rw [hsent] at ha
  have hacts := List.append_cancel_left ha
  rw [ho, ← hacts]
  simp [reports, pushLog, hfail, hok]

/-- Witness for C7: the sample sink rejects its first push with "broken pipe". -/
theorem push_failure_keeps_pushing_witness :
    (steps sampleEnv (init sampleEnv 0) orderlyRun).sent =
      [activityOf 0 "a", activityOf 0 "b"] ∧
    (steps sampleEnv (init sampleEnv 0) orderlyRun).stdout =
      ["Failed to update Discord presence: broken pipe"] :=
  (push_failure_keeps_pushing sampleEnv (init sampleEnv 0) orderlyRun "a" "b" "broken pipe"
    rfl rfl (by decide) (by decide) rfl rfl).2.2

/-! ## The event pump and the two modes of `main` -/

/-- C5: the read loop runs the resolver once for every line, whatever the outcomes, and the
statuses it passes to `debounceUpdate` are `getActiveWindowTitle` of the windows of the
successful resolutions, in order, nothing being submitted for a failed one.  A line whose
resolution gives unparsable output followed by a line whose resolution is valid yields
exactly one submission, the status of the valid window. -/
theorem scanLoop_survives_failed_resolution (env : Env) (w : World)
    (lines : List (Nat × String)) :
    (scanLoop env w lines).queries = w.queries + lines.length ∧
    (scanLoop env w lines).submitted =
      w.submitted ++ (resolutions env w.queries lines.length).filterMap submission ∧
    (∀ n, (getActiveWindowDetails env { w with queries := n }).2 = resolution env n) ∧
    (∀ (l1 l2 : Nat × String) (bad err good : String) (window : ActiveWindow),
      env.hyprctl w.queries = Except.ok bad → env.unmarshal bad = Except.error err →
      env.hyprctl (w.queries + 1) = Except.ok good → env.unmarshal good = Except.ok window →
      (scanLoop env w [l1, l2]).submitted =
        w.submitted ++ [getActiveWindowTitle window.Title window.Class]) ∧
    (listenForActiveWindowChanges sampleEnv (init sampleEnv 0)).submitted =
      ["Opening Inbox"] := by
  refine ⟨(scanLoop_trace env w lines).2, (scanLoop_trace env w lines).1,
    fun n => getActiveWindowDetails_result env { w with queries := n }, ?_, by decide⟩
  intro l1 l2 bad err good window h1 h2 h3 h4
  rw [(scanLoop_trace env w [l1, l2]).1]
  simp [resolutions, List.range_succ, resolution, getActiveWindowDetails, init, h1, h2, h3, h4,
    submission]

/-- C6: when the stream flag is off and login succeeds, `main` pushes exactly one activity,
with status "Working on something great", directly: nothing goes through `debounceUpdate`,
no socket is dialled, no metadata query is run, no timer is pending, and the process stays
blocked.  However far time advances afterwards, and whichever timer firings and clock ticks
follow, no further push is made. -/
theorem main_fallback_single_push (env : Env) (t0 T : Nat) (actions : List Action)
    (hflag : env.useStreamFlag = false)
    (hlogin : env.login "1346300274087559259" = none) :
    (main env (init env t0)).sent =
      [{ State := "Working on something great", Details := "Using Hyprland on NixOS",
         LargeImage := "hyprland-dark", LargeText := "Hyprland", Start := t0 }] ∧
    (main env (init env t0)).submitted = [] ∧
    (main env (init env t0)).dials = [] ∧
    (main env (init env t0)).queries = 0 ∧
    (main env (init env t0)).timers = [] ∧
    (main env (init env t0)).status = ProcStatus.blocked ∧
    (advanceTo env T (main env (init env t0))).sent = (main env (init env t0)).sent ∧
    ((∀ a ∈ actions, ∀ s, a ≠ Action.submit s) →
      (steps env (main env (init env t0)) actions).sent = (main env (init env t0)).sent) := by
  have hm : main env (init env t0) =
      { updateDiscordPresence env (init env t0) "Working on something great" with
        status := ProcStatus.blocked } := by
    simp [main, hlogin, init, hflag]
  have hf := updateDiscordPresence_frame env (init env t0) "Working on something great"
  have hs := updateDiscordPresence_sent env (init env t0) "Working on something great"
  have ht : (main env (init env t0)).timers = [] := by rw [hm]; exact hf.1
  refine ⟨?_, ?_, ?_, ?_, ht, ?_, ?_, ?_⟩
  · rw [hm]
    exact hs
  · rw [hm]
    exact hf.2.2.2.2.2.1
  · rw [hm]
    exact hf.2.2.2.2.2.2.2.1
  · rw [hm]
    exact hf.2.2.2.2.2.2.1
  · rw [hm]
  · rw [advanceTo_nil env T _ ht]
  · intro ha
    exact steps_idle env _ actions ht ha

/-- Witness for C6: the sample environment started without the stream flag. -/
theorem main_fallback_single_push_witness :
    ((main staticEnv (init staticEnv 7)).sent.map fun a => a.State) =
      ["Working on something great"] ∧
    (advanceTo staticEnv 1000000 (main staticEnv (init staticEnv 7))).sent =
      (main staticEnv (init staticEnv 7)).sent :=
  ⟨congrArg (List.map fun a => a.State)
      (main_fallback_single_push staticEnv 7 1000000 [] rfl rfl).1,
    (main_fallback_single_push staticEnv 7 1000000 [] rfl rfl).2.2.2.2.2.2.1⟩

end HyprPresence
